import Mathlib

/-!
Verification development for the daily_executor repository.

The definitions below are shallow embeddings of the Python source:
  * `getNextOpen` / `resolvePrice` embed
    `QueryEngine._get_next_trading_day_open_price` (src/query_engine.py),
  * `matchesQuery`, `queryRows`, `fetchSignals`, `getSignalsForDate` embed
    `QueryEngine.fetch_signals` / `QueryEngine.get_signals_for_date`,
  * `getTodayDate` embeds `DailyExecutor._get_today_date`,
  * `runFrom` / `executeRun` embed `DailyExecutor.execute`,
  * `stepStock` / `runPool` / `step15Model` embed the per-stock loop of
    `DailyExecutor.step1_5_update_cci_divergence`.

Dates and stock codes are strings compared by code point, which models both
Python string comparison and SQLite TEXT (memcmp) comparison for the ASCII
data the system uses.  Prices and confidences are rationals.  Fallible
operations return `Option`.
-/

namespace DailyExec

/-! ### Code-point comparison of strings (SQLite TEXT order, Python `str` order) -/

/-- Strict lexicographic order on character lists, by code point. -/
def listCharLt : List Char → List Char → Bool
  | _, [] => false
  | [], _ :: _ => true
  | a :: as, b :: bs =>
    if a.toNat < b.toNat then true
    else if b.toNat < a.toNat then false
    else listCharLt as bs

/-- Strict string order used by `ORDER BY` and by Python `<` on date strings. -/
def strLt (a b : String) : Bool := listCharLt a.data b.data

/-- Non-strict string order: `a <= b` iff not `b < a`. -/
def strLe (a b : String) : Bool := !(listCharLt b.data a.data)

theorem listCharLt_asymm : ∀ (a b : List Char),
    listCharLt a b = true → listCharLt b a = false := by
  intro a
  induction a with
  | nil =>
    intro b h
    cases b with
    | nil => simp [listCharLt] at h
    | cons y ys => simp [listCharLt]
  | cons x xs ih =>
    intro b h
    cases b with
    | nil => simp [listCharLt] at h
    | cons y ys =>
      simp only [listCharLt] at h ⊢
      rcases Nat.lt_trichotomy x.toNat y.toNat with h1 | h1 | h1
      · simp [h1, Nat.lt_asymm h1]
      · have hx : ¬ x.toNat < y.toNat := by omega
        have hy : ¬ y.toNat < x.toNat := by omega
        simp only [hx, hy, if_false] at h ⊢
        exact ih ys h
      · simp [Nat.lt_asymm h1, h1] at h

theorem listCharLt_comparison : ∀ (a c : List Char), listCharLt a c = true →
    ∀ (b : List Char), listCharLt a b = true ∨ listCharLt b c = true := by
  intro a
  induction a with
  | nil =>
    intro c h b
    cases c with
    | nil => simp [listCharLt] at h
    | cons y ys =>
      cases b with
      | nil => exact Or.inr (by simp [listCharLt])
      | cons z zs => exact Or.inl (by simp [listCharLt])
  | cons x xs ih =>
    intro c h b
    cases c with
    | nil => simp [listCharLt] at h
    | cons y ys =>
      cases b with
      | nil => exact Or.inr (by simp [listCharLt])
      | cons z zs =>
        simp only [listCharLt] at h ⊢
        rcases Nat.lt_trichotomy x.toNat z.toNat with h1 | h1 | h1
        · exact Or.inl (by simp [h1])
        · rcases Nat.lt_trichotomy z.toNat y.toNat with h2 | h2 | h2
          · exact Or.inr (by simp [h2])
          · have hxy1 : ¬ x.toNat < y.toNat := by omega
            have hxy2 : ¬ y.toNat < x.toNat := by omega
            simp only [hxy1, hxy2, if_false] at h
            rcases ih ys h zs with h' | h'
            · refine Or.inl ?_
              have e1 : ¬ x.toNat < z.toNat := by omega
              have e2 : ¬ z.toNat < x.toNat := by omega
              simp [e1, e2, h']
            · refine Or.inr ?_
              have e1 : ¬ z.toNat < y.toNat := by omega
              have e2 : ¬ y.toNat < z.toNat := by omega
              simp [e1, e2, h']
          · have e1 : ¬ x.toNat < y.toNat := by omega
            have e2 : y.toNat < x.toNat := by omega
            simp [e1, e2] at h
        · have hxy : x.toNat ≤ y.toNat := by
            by_contra hgt
            push_neg at hgt
            have e1 : ¬ x.toNat < y.toNat := by omega
            have e2 : y.toNat < x.toNat := by omega
            simp [e1, e2] at h
          exact Or.inr (by simp [show z.toNat < y.toNat by omega])

theorem listCharLt_eq_of_incomp : ∀ (a b : List Char),
    listCharLt a b = false → listCharLt b a = false → a = b := by
  intro a
  induction a with
  | nil =>
    intro b h h'
    cases b with
    | nil => rfl
    | cons y ys => simp [listCharLt] at h
  | cons x xs ih =>
    intro b h h'
    cases b with
    | nil => simp [listCharLt] at h'
    | cons y ys =>
      simp only [listCharLt] at h h'
      have hxy : ¬ x.toNat < y.toNat := by
        intro hc
        simp [hc] at h
      have hyx : ¬ y.toNat < x.toNat := by
        intro hc
        simp [hc] at h'
      simp only [hxy, hyx, if_false] at h h'
      have hnat : x.toNat = y.toNat := by omega
      have hval : x = y := Char.ext (UInt32.ext hnat)
      have htail : xs = ys := ih ys h h'
      rw [hval, htail]

theorem strLt_asymm {a b : String} (h : strLt a b = true) : strLt b a = false :=
  listCharLt_asymm a.data b.data h

theorem strLt_eq_of_incomp {a b : String} (h : strLt a b = false)
    (h' : strLt b a = false) : a = b :=
  String.ext (listCharLt_eq_of_incomp a.data b.data h h')

theorem strLe_of_not_lt {a b : String} (h : strLt b a = false) : strLe a b = true := by
  unfold strLt at h
  unfold strLe
  rw [h]
  rfl

theorem strLe_total (a b : String) : strLe a b = true ∨ strLe b a = true := by
  by_cases h : listCharLt b.data a.data = true
  · right
    unfold strLe
    rw [listCharLt_asymm b.data a.data h]
    rfl
  · left
    have h0 : listCharLt b.data a.data = false := by simpa using h
    unfold strLe
    rw [h0]
    rfl

/-! ### Data model

`EventRow` is a row of the `divergence_events` table as selected by
`fetch_signals` in src/query_engine.py (lines 160-174).  `end_price` is
`Option` because a SQL NULL surfaces as a pandas NaN, which the code tests
with `pd.notna`.  `Signal` is the dataclass of src/signal_types.py. -/

structure EventRow where
  divergence_id : String
  stock_code : String
  start_date : String
  end_date : String
  start_price : ℚ
  end_price : Option ℚ
  start_cci : ℚ
  end_cci : ℚ
  confidence : ℚ
  days_between : ℤ
deriving DecidableEq, Repr

structure Signal where
  stock_code : String
  signal_date : String
  confidence : ℚ
  entry_price : ℚ
  reason : String
  divergence_id : String
deriving DecidableEq, Repr

/-- The `reason` string built in `fetch_signals` (line 240).  Numeric
formatting is abstracted by `toString`; the claims only rely on the reason
being a deterministic function of the row. -/
def reasonFor (r : EventRow) : String :=
  "CCI底背离(CCI:" ++ toString r.start_cci ++ "→" ++ toString r.end_cci
    ++ ", " ++ toString r.days_between ++ "天)"

/-! ### Price resolver

`QueryEngine._get_next_trading_day_open_price` (src/query_engine.py lines
77-130).  A stock's K-line file is a dated series of `(date, open)` entries;
`prices` maps a stock code to its series, `none` when the CSV is missing or
unreadable (every exception in the Python function is caught and turned
into `None`). -/

/-- Core lookup on a loaded series: membership test (`signal_date_dt not in
df.index` → `None`), positional index (`get_loc` — an integer only when the
date occurs exactly once; on a duplicated date it yields a slice/mask and
`signal_idx + 1` raises, which the handler turns into `None`), bounds check
(`signal_idx + 1 >= len(df)` → `None`), then the following entry's `open`. -/
def getNextOpen (rows : List (String × ℚ)) (sd : String) : Option ℚ :=
  if rows.countP (fun e => e.1 == sd) == 1 then
    match rows[(rows.findIdx (fun e => e.1 == sd)) + 1]? with
    | some e => some e.2
    | none => none
  else none

/-- The resolver including the missing-file / failed-read path. -/
def resolvePrice (prices : String → Option (List (String × ℚ)))
    (stockCode sd : String) : Option ℚ :=
  match prices stockCode with
  | none => none
  | some rows => getNextOpen rows sd

/-! ### Query engine

`QueryEngine.fetch_signals` (src/query_engine.py lines 132-252).  The Event
Store is a list of rows in arbitrary (insertion) order; the SQL predicate
and `ORDER BY end_date, stock_code` are reproduced literally, including the
truthiness tests on each filter argument (`if start_date:`, `if
stock_codes:`, `if min_confidence > 0:`). -/

structure QueryArgs where
  start_date : String
  end_date : String
  stock_codes : Option (List String)
  min_confidence : ℚ
  use_next_day_open : Bool

/-- The composed SQL `WHERE` clause. An absent clause imposes no
constraint: empty-string dates, `None` or empty stock list, and a
non-positive confidence threshold are all skipped, as in the source. -/
def matchesQuery (a : QueryArgs) (r : EventRow) : Bool :=
  (a.start_date == "" || strLe a.start_date r.end_date)
    && (a.end_date == "" || strLe r.end_date a.end_date)
    && (match a.stock_codes with
        | none => true
        | some l => l.isEmpty || l.contains r.stock_code)
    && (decide (a.min_confidence ≤ 0) || decide (a.min_confidence ≤ r.confidence))

/-- `ORDER BY end_date, stock_code` comparator on rows (SQLite TEXT order). -/
def rowLe (a b : EventRow) : Bool :=
  if strLt a.end_date b.end_date then true
  else if strLt b.end_date a.end_date then false
  else strLe a.stock_code b.stock_code

/-- `rowLe` as a decidable relation, for sorting. -/
def rowLeProp (a b : EventRow) : Prop := rowLe a b = true

instance : DecidableRel rowLeProp :=
  fun a b => inferInstanceAs (Decidable (rowLe a b = true))

/-- Rows returned by the SQL query: filtered by the composed predicate and
ordered by `(end_date, stock_code)`. -/
def queryRows (db : List EventRow) (a : QueryArgs) : List EventRow :=
  List.insertionSort rowLeProp (db.filter (matchesQuery a))

/-- Fallback entry price (lines 227 and 232): the row's own `end_price`
when present, `0.0` when it is NaN/NULL. -/
def rowFallback (r : EventRow) : ℚ :=
  match r.end_price with
  | some p => p
  | none => 0

/-- Entry-price assignment for one row (lines 218-232). -/
def rowEntryPrice (prices : String → Option (List (String × ℚ)))
    (useNext : Bool) (r : EventRow) : ℚ :=
  if useNext then
    match resolvePrice prices r.stock_code r.end_date with
    | some p => p
    | none => rowFallback r
  else rowFallback r

/-- The `Signal` object built for one row (lines 235-242). -/
def mkSignal (prices : String → Option (List (String × ℚ)))
    (useNext : Bool) (r : EventRow) : Signal :=
  { stock_code := r.stock_code
    signal_date := r.end_date
    confidence := r.confidence
    entry_price := rowEntryPrice prices useNext r
    reason := reasonFor r
    divergence_id := r.divergence_id }

/-- `skipped_count` (lines 215, 228, 246-248): how many of the processed
rows used the fallback price in next-open mode. -/
def fallbackCount (prices : String → Option (List (String × ℚ)))
    (rows : List EventRow) : ℕ :=
  rows.countP (fun r => (resolvePrice prices r.stock_code r.end_date).isNone)

/-- `QueryEngine.fetch_signals`: query, then build one Signal per row. -/
def fetchSignals (prices : String → Option (List (String × ℚ)))
    (db : List EventRow) (a : QueryArgs) : List Signal :=
  (queryRows db a).map (mkSignal prices a.use_next_day_open)

/-- `QueryEngine.get_signals_for_date` (lines 254-282): delegates to
`fetch_signals` with `start_date = end_date = signal_date`. -/
def getSignalsForDate (prices : String → Option (List (String × ℚ)))
    (db : List EventRow) (signalDate : String) (stockCodes : Option (List String))
    (minConfidence : ℚ) (useNextDayOpen : Bool) : List Signal :=
  fetchSignals prices db
    { start_date := signalDate
      end_date := signalDate
      stock_codes := stockCodes
      min_confidence := minConfidence
      use_next_day_open := useNextDayOpen }

/-- Divergence ids underlying a signal list. -/
def signalIds (l : List Signal) : List String := l.map Signal.divergence_id

/-! ### Date handling

`DailyExecutor._get_today_date` (src/daily_executor.py lines 181-199)
validates a caller-supplied date with `datetime.strptime(custom_date,
'%Y-%m-%d')`; on `ValueError` it logs a warning and substitutes today's
date.  `isValidDate` reproduces strptime's `%Y-%m-%d` acceptance: exactly
four digits for the year, one or two digits for month and day, dashes in
between, and the values must form a real proleptic-Gregorian calendar date
with year at least 1. -/

/-- Split a character list at every dash, the field structure strptime
sees for the format string `%Y-%m-%d`. -/
def splitDashes : List Char → List Char → List (List Char)
  | [], acc => [acc.reverse]
  | c :: rest, acc =>
    if c = '-' then acc.reverse :: splitDashes rest []
    else splitDashes rest (c :: acc)

/-- All characters are ASCII digits and the field is nonempty. -/
def isDigitField (cs : List Char) : Bool :=
  !cs.isEmpty && cs.all (fun c => 48 ≤ c.toNat && c.toNat ≤ 57)

/-- Numeric value of a digit field. -/
def digitsToNat (cs : List Char) : ℕ :=
  cs.foldl (fun n c => 10 * n + (c.toNat - 48)) 0

def isLeapYear (y : ℕ) : Bool :=
  (y % 4 == 0 && y % 100 != 0) || (y % 400 == 0)

def daysInMonth (y m : ℕ) : ℕ :=
  if m = 2 then (if isLeapYear y then 29 else 28)
  else if m = 4 ∨ m = 6 ∨ m = 9 ∨ m = 11 then 30
  else 31

/-- Whether `datetime.strptime(s, '%Y-%m-%d')` succeeds. -/
def isValidDate (s : String) : Bool :=
  match splitDashes s.data [] with
  | [y, m, d] =>
    (y.length == 4 && isDigitField y)
      && ((m.length == 1 || m.length == 2) && isDigitField m)
      && ((d.length == 1 || d.length == 2) && isDigitField d)
      && (decide (1 ≤ digitsToNat y)
          && decide (1 ≤ digitsToNat m) && decide (digitsToNat m ≤ 12)
          && decide (1 ≤ digitsToNat d)
          && decide (digitsToNat d ≤ daysInMonth (digitsToNat y) (digitsToNat m)))
  | _ => false

/-- `_get_today_date`: a truthy, well-formed `custom_date` is returned
as-is; a malformed one is replaced by today's date (with a logged
warning); an absent or empty one yields today's date. -/
def getTodayDate (customDate : Option String) (today : String) : String :=
  match customDate with
  | none => today
  | some d => if d.isEmpty then today else if isValidDate d then d else today

/-! ### Pipeline orchestrator

`DailyExecutor.execute` (src/daily_executor.py lines 598-669): the fixed
step sequence step1 → step1.5 → step2 → step3, each step either skipped
(by name membership in `skip_steps`) or executed; the first executed step
that returns `False` ends the run with overall failure. -/

inductive Step where
  | step1
  | step1_5
  | step2
  | step3
deriving DecidableEq, Fintype, Repr

/-- Position of a step in the fixed sequence. -/
def stepIdx : Step → ℕ
  | .step1 => 0
  | .step1_5 => 1
  | .step2 => 2
  | .step3 => 3

/-- The fixed step sequence of `execute`. -/
def stepSeq : List Step := [.step1, .step1_5, .step2, .step3]

/-- The skip test of `execute`: string membership in `skip_steps`; step 1.5
answers to both spellings. -/
def skippedStep (skip : List String) : Step → Bool
  | .step1 => skip.contains "step1"
  | .step1_5 => skip.contains "step1.5" || skip.contains "step1_5"
  | .step2 => skip.contains "step2"
  | .step3 => skip.contains "step3"

/-- Run the remaining steps: a skipped step is passed over, an executed
step that fails ends the run at once with overall failure; the trace lists
the steps actually executed, in order.  `res s` is the boolean outcome the
step function would return. -/
def runFrom (skipf res : Step → Bool) : List Step → List Step × Bool
  | [] => ([], true)
  | s :: rest =>
    if skipf s then runFrom skipf res rest
    else if res s then
      let r := runFrom skipf res rest
      (s :: r.1, r.2)
    else ([s], false)

/-- Steps of a run that actually execute. -/
def executedSteps (skip : List String) (res : Step → Bool) : List Step :=
  (runFrom (skippedStep skip) res stepSeq).1

/-- The boolean `execute` returns. -/
def executeOk (skip : List String) (res : Step → Bool) : Bool :=
  (runFrom (skippedStep skip) res stepSeq).2

/-- A whole run including the date plumbing: steps 1.5 and 2 both derive
their target date from `_get_today_date(custom_date)`. -/
structure RunOutcome where
  trace : List Step
  targetDate : String
  ok : Bool
deriving DecidableEq, Repr

def executeRun (skip : List String) (res : Step → Bool)
    (customDate : Option String) (today : String) : RunOutcome :=
  { trace := (runFrom (skippedStep skip) res stepSeq).1
    targetDate := getTodayDate customDate today
    ok := (runFrom (skippedStep skip) res stepSeq).2 }

/-! ### Per-stock event-store update

The per-stock loop of `DailyExecutor.step1_5_update_cci_divergence`
(src/daily_executor.py lines 351-477).  Each stock's processing has one of
the outcomes below; `exn` is an exception reaching the per-stock handler
(read error, detection error, or a non-duplicate insert error), the other
non-`ok` outcomes are the explicit `continue` paths. -/

inductive StockOutcome where
  | noCsv
  | noDateCol
  | emptyData
  | dateError
  | shortData
  | missingCols
  | noDivs
  | ok (newDivs dupDivs : ℕ)
  | exn
deriving DecidableEq, Repr

structure PoolStats where
  totalProcessed : ℕ
  successCount : ℕ
  errorCount : ℕ
  totalDivergences : ℕ
  processedStocks : List String
deriving DecidableEq, Repr

/-- One iteration of the loop body for stock `code` with outcome `o`. -/
def stepStock (st : PoolStats) (code : String) (o : StockOutcome) : PoolStats :=
  let st' := { st with
    totalProcessed := st.totalProcessed + 1
    processedStocks := st.processedStocks ++ [code] }
  match o with
  | .ok nd _ => { st' with
      totalDivergences := st'.totalDivergences + nd
      successCount := st'.successCount + 1 }
  | .exn => { st' with errorCount := st'.errorCount + 1 }
  | _ => st'

/-- The loop over the stock pool; `env` gives each stock's outcome. -/
def processPool (env : String → StockOutcome) :
    List String → PoolStats → PoolStats
  | [], st => st
  | c :: rest, st => processPool env rest (stepStock st c (env c))

def runPool (env : String → StockOutcome) (stocks : List String) : PoolStats :=
  processPool env stocks ⟨0, 0, 0, 0, []⟩

/-- `step1_5_update_cci_divergence` as a whole (lines 274-491).  `importOk`
is the CCI module import; `poolCfg` is the configured stock-pool file (or
`none` if unset/empty); `readPool` is `_read_stock_pool` (`none` on missing
file, empty pool, or read error); `allCsv` is the stock list gathered from
the data directory's CSV files when no pool is given.  The step returns
`False` only on import failure or pool-read failure; after the loop it
returns `True` unconditionally, whatever the per-stock error count. -/
def step15Model (importOk : Bool) (poolCfg : Option String)
    (readPool : String → Option (List String)) (allCsv : List String)
    (env : String → StockOutcome) : Bool × Option PoolStats :=
  if !importOk then (false, none)
  else
    match poolCfg with
    | none => (true, some (runPool env allCsv))
    | some f =>
      match readPool f with
      | none => (false, none)
      | some codes =>
        let stocks := if codes.isEmpty then allCsv else codes
        (true, some (runPool env stocks))

example : isValidDate "2025-11-06" = true := by decide

example : isValidDate "2025-13-01" = false := by decide

example : isValidDate "2025-1-1" = true := by decide

example : isValidDate "2025-02-29" = false := by decide

example : isValidDate "2024-02-29" = true := by decide

example : isValidDate "20251106" = false := by decide

example : isValidDate "0000-01-01" = false := by decide

example : getTodayDate (some "2025-13-01") "2025-11-11" = "2025-11-11" := by decide

example : getNextOpen [("2025-11-06", 180), ("2025-11-07", mkRat 365 2)] "2025-11-06"
    = some (mkRat 365 2) := by decide

example : getNextOpen [("2025-11-06", 180), ("2025-11-07", mkRat 365 2)] "2025-11-07"
    = none := by decide

example : getNextOpen [("2025-11-06", 180), ("2025-11-07", mkRat 365 2)] "2025-11-05"
    = none := by decide

example :
    executeRun [] (fun _ => true) (some "2025-13-01") "2025-11-11"
      = ⟨[.step1, .step1_5, .step2, .step3], "2025-11-11", true⟩ := by decide

example :
    executeRun [] (fun s => !(s == Step.step1_5)) none "2025-11-11"
      = ⟨[.step1, .step1_5], "2025-11-11", false⟩ := by decide

example :
    executeRun ["step1.5"] (fun s => !(s == Step.step1_5)) none "2025-11-11"
      = ⟨[.step1, .step2, .step3], "2025-11-11", true⟩ := by decide

def demoRowA : EventRow :=
  ⟨"DIV1", "600519_SH", "2025-10-20", "2025-11-06", 170, some 180, -120, -80, mkRat 62 100, 12⟩

def demoRowB : EventRow :=
  ⟨"DIV2", "000001_SZ", "2025-10-21", "2025-11-05", 10, some 11, -150, -90, mkRat 9 10, 10⟩

example :
    queryRows [demoRowA, demoRowB] ⟨"", "", none, 0, true⟩ = [demoRowB, demoRowA] := by decide

example :
    signalIds (fetchSignals (fun _ => none) [demoRowA, demoRowB] ⟨"", "", none, mkRat 7 10, true⟩)
      = ["DIV2"] := by decide

example :
    (fetchSignals (fun _ => none) [demoRowA] ⟨"", "", none, 0, true⟩).map Signal.entry_price
      = [180] := by decide

/-! ### Order-theoretic facts about the `ORDER BY` comparator -/

theorem strLt_trans {a b c : String} (hab : strLt a b = true)
    (hbc : strLt b c = true) : strLt a c = true := by
  rcases listCharLt_comparison a.data b.data hab c.data with h | h
  · exact h
  · have := listCharLt_asymm b.data c.data hbc
    rw [this] at h
    exact absurd h (by simp)

theorem strLe_trans {a b c : String} (hab : strLe a b = true)
    (hbc : strLe b c = true) : strLe a c = true := by
  unfold strLe at hab hbc ⊢
  by_cases h : listCharLt c.data a.data = true
  · rcases listCharLt_comparison c.data a.data h b.data with h' | h'
    · rw [h'] at hbc
      exact absurd hbc (by simp)
    · rw [h'] at hab
      exact absurd hab (by simp)
  · simpa using h

theorem strLe_of_lt {a b : String} (h : strLt a b = true) : strLe a b = true :=
  strLe_of_not_lt (strLt_asymm h)

theorem rowLe_total : ∀ (a b : EventRow), rowLeProp a b ∨ rowLeProp b a := by
  intro a b
  unfold rowLeProp rowLe
  by_cases h1 : strLt a.end_date b.end_date = true
  · left
    simp [h1]
  · by_cases h2 : strLt b.end_date a.end_date = true
    · right
      simp [h2]
    · have hf1 : strLt a.end_date b.end_date = false := by simpa using h1
      have hf2 : strLt b.end_date a.end_date = false := by simpa using h2
      rcases strLe_total a.stock_code b.stock_code with h | h
      · left
        simp [hf1, hf2, h]
      · right
        simp [hf1, hf2, h]

theorem rowLe_trans : ∀ (a b c : EventRow),
    rowLeProp a b → rowLeProp b c → rowLeProp a c := by
  intro a b c hab hbc
  unfold rowLeProp rowLe at hab hbc ⊢
  by_cases dab : strLt a.end_date b.end_date = true
  · by_cases dbc : strLt b.end_date c.end_date = true
    · simp [strLt_trans dab dbc]
    · by_cases dcb : strLt c.end_date b.end_date = true
      · rw [if_neg (by simp [dbc]), if_pos dcb] at hbc
        exact absurd hbc (by simp)
      · have heq : b.end_date = c.end_date :=
          strLt_eq_of_incomp (by simpa using dbc) (by simpa using dcb)
        rw [heq] at dab
        simp [dab]
  · by_cases dba : strLt b.end_date a.end_date = true
    · rw [if_neg (by simp [dab]), if_pos dba] at hab
      exact absurd hab (by simp)
    · have heqab : a.end_date = b.end_date :=
        strLt_eq_of_incomp (by simpa using dab) (by simpa using dba)
      rw [if_neg (by simp [dab]), if_neg (by simp [dba])] at hab
      by_cases dbc : strLt b.end_date c.end_date = true
      · rw [heqab]
        simp [dbc]
      · by_cases dcb : strLt c.end_date b.end_date = true
        · rw [if_neg (by simp [dbc]), if_pos dcb] at hbc
          exact absurd hbc (by simp)
        · have heqbc : b.end_date = c.end_date :=
            strLt_eq_of_incomp (by simpa using dbc) (by simpa using dcb)
          rw [if_neg (by simp [dbc]), if_neg (by simp [dcb])] at hbc
          rw [heqab, heqbc]
          simp [strLe_trans hab hbc]

instance : IsTotal EventRow rowLeProp := ⟨rowLe_total⟩

instance : IsTrans EventRow rowLeProp := ⟨rowLe_trans⟩

/-- Membership in the SQL result is membership in the store plus the
composed predicate. -/
theorem mem_queryRows {db : List EventRow} {a : QueryArgs} {r : EventRow} :
    r ∈ queryRows db a ↔ r ∈ db ∧ matchesQuery a r = true := by
  unfold queryRows
  rw [(List.perm_insertionSort rowLeProp _).mem_iff, List.mem_filter]

/-- The SQL result has exactly one row per matching store row. -/
theorem length_queryRows (db : List EventRow) (a : QueryArgs) :
    (queryRows db a).length = (db.filter (matchesQuery a)).length :=
  (List.perm_insertionSort rowLeProp _).length_eq

/-! ### Helper lemmas for the price resolver -/

theorem findIdx_eq_of_nodup (rows : List (String × ℚ)) (sd : String)
    (hnd : (rows.map Prod.fst).Nodup) :
    ∀ (i : ℕ) (hi : i < rows.length), (rows.get ⟨i, hi⟩).1 = sd →
      rows.findIdx (fun e => e.1 == sd) = i := by
  induction rows with
  | nil =>
    intro i hi
    exact absurd hi (by simp)
  | cons e rest ih =>
    intro i hi hm
    rw [List.findIdx_cons]
    cases i with
    | zero =>
      simp only [List.get] at hm
      simp [hm]
    | succ j =>
      simp only [List.get] at hm
      rw [List.map_cons, List.nodup_cons] at hnd
      have hmem : sd ∈ rest.map Prod.fst := by
        rw [List.mem_map]
        exact ⟨rest.get ⟨j, by simpa using hi⟩, List.get_mem _ _ _, hm⟩
      have hne : e.1 ≠ sd := fun he => hnd.1 (he ▸ hmem)
      have hrest : rest.findIdx (fun x => x.1 == sd) = j :=
        ih hnd.2 j (by simpa using hi) hm
      have hbeq : (e.1 == sd) = false := by simpa using hne
      simp [hbeq, hrest]

theorem countP_match_eq_one_of_nodup (rows : List (String × ℚ)) (sd : String)
    (hnd : (rows.map Prod.fst).Nodup) :
    ∀ (i : ℕ) (hi : i < rows.length), (rows.get ⟨i, hi⟩).1 = sd →
      rows.countP (fun e => e.1 == sd) = 1 := by
  induction rows with
  | nil =>
    intro i hi
    exact absurd hi (by simp)
  | cons e rest ih =>
    intro i hi hm
    rw [List.countP_cons]
    cases i with
    | zero =>
      simp only [List.get] at hm
      rw [List.map_cons, List.nodup_cons] at hnd
      have hrest : rest.countP (fun x => x.1 == sd) = 0 := by
        rw [List.countP_eq_zero]
        intro x hx hpx
        exact hnd.1 (hm ▸ List.mem_map.mpr ⟨x, hx, by simpa using hpx⟩)
      simp [hrest, hm]
    | succ j =>
      simp only [List.get] at hm
      rw [List.map_cons, List.nodup_cons] at hnd
      have hne : e.1 ≠ sd := by
        intro he
        refine hnd.1 ?_
        rw [he, List.mem_map]
        exact ⟨rest.get ⟨j, by simpa using hi⟩, List.get_mem _ _ _, hm⟩
      have hrest : rest.countP (fun x => x.1 == sd) = 1 :=
        ih hnd.2 j (by simpa using hi) hm
      have hbeq : (e.1 == sd) = false := by simpa using hne
      simp [hbeq, hrest]

/-! ### Helper lemmas for the query engine -/

/-- Weakening the confidence threshold can only keep a row matching. -/
theorem matchesQuery_mono {sd ed : String} {sc : Option (List String)}
    {un : Bool} {t1 t2 : ℚ} (hlt : t1 < t2) {r : EventRow}
    (hm : matchesQuery ⟨sd, ed, sc, t2, un⟩ r = true) :
    matchesQuery ⟨sd, ed, sc, t1, un⟩ r = true := by
  unfold matchesQuery at hm ⊢
  simp only [Bool.and_eq_true, Bool.or_eq_true, decide_eq_true_eq] at hm ⊢
  obtain ⟨⟨⟨h1, h2⟩, h3⟩, h4⟩ := hm
  refine ⟨⟨⟨h1, h2⟩, h3⟩, ?_⟩
  rcases h4 with h4 | h4
  · exact Or.inl (by linarith)
  · exact Or.inr (by linarith)

/-! ### Helper lemmas for the per-stock loop -/

theorem stepStock_processedStocks (st : PoolStats) (c : String) (o : StockOutcome) :
    (stepStock st c o).processedStocks = st.processedStocks ++ [c] := by
  cases o <;> rfl

theorem stepStock_totalProcessed (st : PoolStats) (c : String) (o : StockOutcome) :
    (stepStock st c o).totalProcessed = st.totalProcessed + 1 := by
  cases o <;> rfl

theorem stepStock_errorCount (st : PoolStats) (c : String) (o : StockOutcome) :
    (stepStock st c o).errorCount
      = st.errorCount + (if o = StockOutcome.exn then 1 else 0) := by
  cases o <;> simp [stepStock]

theorem processPool_spec (env : String → StockOutcome) :
    ∀ (stocks : List String) (st : PoolStats),
      (processPool env stocks st).processedStocks = st.processedStocks ++ stocks ∧
      (processPool env stocks st).totalProcessed = st.totalProcessed + stocks.length ∧
      (processPool env stocks st).errorCount
        = st.errorCount + stocks.countP (fun c => decide (env c = StockOutcome.exn)) := by
  intro stocks
  induction stocks with
  | nil =>
    intro st
    simp [processPool]
  | cons c rest ih =>
    intro st
    obtain ⟨ih1, ih2, ih3⟩ := ih (stepStock st c (env c))
    refine ⟨?_, ?_, ?_⟩
    · rw [processPool, ih1, stepStock_processedStocks]
      simp
    · rw [processPool, ih2, stepStock_totalProcessed]
      simp [Nat.add_assoc, Nat.add_comm 1]
    · rw [processPool, ih3, stepStock_errorCount, List.countP_cons]
      by_cases h : env c = StockOutcome.exn
      · simp [h]
        omega
      · simp [h]

/-! ### Demonstration data for witnesses -/

def demoSeries : List (String × ℚ) := [("2025-11-06", 180), ("2025-11-07", mkRat 365 2)]

def pricesUnavailable : String → Option (List (String × ℚ)) := fun _ => none

def allStepsOk : Step → Bool := fun _ => true

def resStep15Fails : Step → Bool := fun s => !(s == Step.step1_5)

def demoPool : String → Option (List String) := fun _ => some ["600519_SH", "000001_SZ"]

def demoAllFail : String → StockOutcome := fun _ => StockOutcome.exn

/-- Sort key claimed for the output: `(signal_date, stock_code)` ascending. -/
def signalLe (s t : Signal) : Prop :=
  strLt s.signal_date t.signal_date = true ∨
    (s.signal_date = t.signal_date ∧ strLe s.stock_code t.stock_code = true)

/-! ### Claims -/

/-- Claim C1: on a series whose dates are distinct, the price resolver
returns the open price of the entry immediately following the entry that
exactly matches `signal_date`; it returns `none` when no entry matches, and
`none` when the matching entry is the last of the series (the `[i+1]?`
lookup past the end) — never the same-day price. -/
theorem next_open_rule (rows : List (String × ℚ)) (sd : String)
    (hnd : (rows.map Prod.fst).Nodup) :
    ((∀ e ∈ rows, e.1 ≠ sd) → getNextOpen rows sd = none) ∧
    (∀ (i : ℕ) (hi : i < rows.length), (rows.get ⟨i, hi⟩).1 = sd →
      getNextOpen rows sd = (rows[i + 1]?).map Prod.snd) := by
  constructor
  · intro hno
    have hc0 : rows.countP (fun e => e.1 == sd) = 0 := by
      rw [List.countP_eq_zero]
      intro e he
      simpa using hno e he
    unfold getNextOpen
    rw [if_neg (by simp [hc0])]
  · intro i hi hm
    have hc1 : rows.countP (fun e => e.1 == sd) = 1 :=
      countP_match_eq_one_of_nodup rows sd hnd i hi hm
    have hf : rows.findIdx (fun e => e.1 == sd) = i :=
      findIdx_eq_of_nodup rows sd hnd i hi hm
    unfold getNextOpen
    rw [if_pos (by simp [hc1]), hf]
    cases h2 : rows[i + 1]? with
    | none => simp
    | some e => simp

/-- Witness for C1 on a two-entry series: signal on the first entry yields
the second entry's open, signal on the last entry yields `none`, signal on
an absent date yields `none`. -/
theorem next_open_rule_witness :
    getNextOpen demoSeries "2025-11-06" = (demoSeries[1]?).map Prod.snd ∧
    getNextOpen demoSeries "2025-11-07" = (demoSeries[2]?).map Prod.snd ∧
    getNextOpen demoSeries "2025-11-05" = none :=
  ⟨(next_open_rule demoSeries "2025-11-06" (by decide)).2 0 (by decide) (by decide),
   (next_open_rule demoSeries "2025-11-07" (by decide)).2 1 (by decide) (by decide),
   (next_open_rule demoSeries "2025-11-05" (by decide)).1 (by decide)⟩

set_option maxHeartbeats 1000000 in
set_option synthInstance.maxHeartbeats 2000000 in
set_option synthInstance.maxSize 1024 in
/-- Claim C2: for every skip set and every assignment of step outcomes,
a skipped step never executes; the first non-skipped failing step halts the
run — no later step executes and the run fails; if every non-skipped step
succeeds the run succeeds. -/
theorem pipeline_fail_fast (skip : List String) (res : Step → Bool) :
    (∀ s : Step, skippedStep skip s = true → s ∉ executedSteps skip res) ∧
    (∀ s : Step, skippedStep skip s = false → res s = false →
      (∀ t : Step, stepIdx t < stepIdx s → (skippedStep skip t = true ∨ res t = true)) →
      (∀ t : Step, stepIdx s < stepIdx t → t ∉ executedSteps skip res) ∧
        executeOk skip res = false) ∧
    ((∀ s : Step, skippedStep skip s = false → res s = true) →
      executeOk skip res = true) := by
  have key : ∀ (skipf resf : Step → Bool),
      (∀ s : Step, skipf s = true → s ∉ (runFrom skipf resf stepSeq).1) ∧
      (∀ s : Step, skipf s = false → resf s = false →
        (∀ t : Step, stepIdx t < stepIdx s → (skipf t = true ∨ resf t = true)) →
        (∀ t : Step, stepIdx s < stepIdx t → t ∉ (runFrom skipf resf stepSeq).1) ∧
          (runFrom skipf resf stepSeq).2 = false) ∧
      ((∀ s : Step, skipf s = false → resf s = true) →
        (runFrom skipf resf stepSeq).2 = true) := by decide
  exact key (skippedStep skip) res

/-- Witness for C2: with nothing skipped and step 1.5 failing, step 2 never
executes and the run fails. -/
theorem pipeline_fail_fast_witness :
    Step.step2 ∉ executedSteps [] resStep15Fails ∧
    executeOk [] resStep15Fails = false := by
  have h := (pipeline_fail_fast [] resStep15Fails).2.1 Step.step1_5
    (by decide) (by decide) (by decide)
  exact ⟨h.1 Step.step2 (by decide), h.2⟩

/-- Claim C3: `get_signals_for_date` is the range query with equal
endpoints — identical output for every date and filter combination. -/
theorem get_for_date_eq_fetch (prices : String → Option (List (String × ℚ)))
    (db : List EventRow) (d : String) (sc : Option (List String)) (mc : ℚ)
    (un : Bool) :
    getSignalsForDate prices db d sc mc un
      = fetchSignals prices db ⟨d, d, sc, mc, un⟩ := rfl

/-- Claim C4: the output of `fetch_signals` is always sorted by
`(signal_date, stock_code)` ascending, whatever the insertion order of the
Event Store rows. -/
theorem fetch_signals_sorted (prices : String → Option (List (String × ℚ)))
    (db : List EventRow) (a : QueryArgs) :
    (fetchSignals prices db a).Pairwise signalLe := by
  unfold fetchSignals queryRows
  refine List.Pairwise.map _ ?_ (List.sorted_insertionSort rowLeProp _)
  intro x y hxy
  unfold rowLeProp rowLe at hxy
  unfold signalLe mkSignal
  simp only
  by_cases d1 : strLt x.end_date y.end_date = true
  · exact Or.inl d1
  · by_cases d2 : strLt y.end_date x.end_date = true
    · rw [if_neg (by simp [d1]), if_pos d2] at hxy
      exact absurd hxy (by simp)
    · have heq : x.end_date = y.end_date :=
        strLt_eq_of_incomp (by simpa using d1) (by simpa using d2)
      rw [if_neg (by simp [d1]), if_neg (by simp [d2])] at hxy
      exact Or.inr ⟨heq, hxy⟩

/-- Claim C5: in next-open mode, when the resolver reports the price
unavailable for a matched row with a recorded `end_price`, the produced
Signal carries that `end_price` as entry price, the row is counted in the
fallback tally, and a Signal for the row is still present in the output —
the lookup failure is never fatal. -/
theorem fallback_on_unavailable (prices : String → Option (List (String × ℚ)))
    (db : List EventRow) (a : QueryArgs) (r : EventRow) (p : ℚ)
    (hu : a.use_next_day_open = true)
    (hr : r ∈ queryRows db a)
    (hfail : resolvePrice prices r.stock_code r.end_date = none)
    (hp : r.end_price = some p) :
    (mkSignal prices true r).entry_price = p ∧
    mkSignal prices true r ∈ fetchSignals prices db a ∧
    0 < fallbackCount prices (queryRows db a) := by
  refine ⟨?_, ?_, ?_⟩
  · simp [mkSignal, rowEntryPrice, hfail, rowFallback, hp]
  · unfold fetchSignals
    rw [hu]
    exact List.mem_map_of_mem _ hr
  · unfold fallbackCount
    rw [List.countP_pos_iff]
    exact ⟨r, hr, by simp [hfail]⟩

/-- Witness for C5: a store with a single matching row, every K-line file
missing — the one Signal produced uses the recorded price 180. -/
theorem fallback_on_unavailable_witness :
    demoRowA ∈ queryRows [demoRowA] ⟨"", "", none, 0, true⟩ ∧
    (mkSignal pricesUnavailable true demoRowA).entry_price = 180 ∧
    mkSignal pricesUnavailable true demoRowA
      ∈ fetchSignals pricesUnavailable [demoRowA] ⟨"", "", none, 0, true⟩ ∧
    0 < fallbackCount pricesUnavailable (queryRows [demoRowA] ⟨"", "", none, 0, true⟩) :=
  ⟨by decide,
   fallback_on_unavailable pricesUnavailable [demoRowA] ⟨"", "", none, 0, true⟩
     demoRowA 180 rfl (by decide) rfl rfl⟩

/-- Claim C6: raising the confidence threshold can only shrink the result:
every divergence id present under threshold `t2` is present under any
`t1 < t2`, all other filters equal. -/
theorem confidence_monotone (prices : String → Option (List (String × ℚ)))
    (db : List EventRow) (sd ed : String) (sc : Option (List String))
    (un : Bool) (t1 t2 : ℚ) (hlt : t1 < t2) :
    (signalIds (fetchSignals prices db ⟨sd, ed, sc, t2, un⟩)).all
      (fun i =>
        (signalIds (fetchSignals prices db ⟨sd, ed, sc, t1, un⟩)).contains i)
      = true := by
  rw [List.all_eq_true]
  intro i hi
  unfold signalIds fetchSignals at hi
  rw [List.map_map, List.mem_map] at hi
  obtain ⟨r, hr, hid⟩ := hi
  rw [mem_queryRows] at hr
  have hr1 : r ∈ queryRows db ⟨sd, ed, sc, t1, un⟩ :=
    mem_queryRows.mpr ⟨hr.1, matchesQuery_mono hlt hr.2⟩
  rw [List.contains_iff_exists_mem_beq]
  refine ⟨i, ?_, by simp⟩
  unfold signalIds fetchSignals
  rw [List.map_map, List.mem_map]
  exact ⟨r, hr1, hid⟩

/-- Witness for C6 at thresholds 1/2 < 4/5 on a two-row store. -/
theorem confidence_monotone_witness :
    mkRat 1 2 < mkRat 4 5 ∧
    (signalIds (fetchSignals pricesUnavailable [demoRowA, demoRowB]
        ⟨"", "", none, mkRat 4 5, true⟩)).all
      (fun i =>
        (signalIds (fetchSignals pricesUnavailable [demoRowA, demoRowB]
          ⟨"", "", none, mkRat 1 2, true⟩)).contains i) = true :=
  ⟨by decide,
   confidence_monotone pricesUnavailable [demoRowA, demoRowB] "" "" none true
     (mkRat 1 2) (mkRat 4 5) (by decide)⟩

/-- Claim C7: the per-stock loop of the event-store update processes every
stock in the pool whatever each stock's outcome — a failure on one stock
never skips a later stock — and the error counter counts exactly the
stocks whose processing raised. -/
theorem per_stock_isolation (env : String → StockOutcome) (stocks : List String) :
    (runPool env stocks).processedStocks = stocks ∧
    (runPool env stocks).totalProcessed = stocks.length ∧
    (runPool env stocks).errorCount
      = stocks.countP (fun c => decide (env c = StockOutcome.exn)) := by
  have h := processPool_spec env stocks ⟨0, 0, 0, 0, []⟩
  simpa [runPool] using h

/-- Counterexample for C8: the malformed date `"2025-13-01"` is not
rejected before any step executes — with all steps succeeding and nothing
skipped, all four steps run, the run succeeds, and the target date the
steps operate on is the substituted current date `"2025-11-11"`, not the
caller's argument. -/
theorem malformed_date_not_rejected :
    isValidDate "2025-13-01" = false ∧
    executeRun [] allStepsOk (some "2025-13-01") "2025-11-11"
      = ⟨[.step1, .step1_5, .step2, .step3], "2025-11-11", true⟩ := by decide

/-- Claim C8 (amended): a malformed `target_date`/`--date` string is not
rejected; `_get_today_date` logs a warning and substitutes today's date,
and the run proceeds exactly as if no date override had been supplied. -/
theorem malformed_date_substitutes_today (skip : List String)
    (res : Step → Bool) (d today : String) (h : isValidDate d = false) :
    executeRun skip res (some d) today = executeRun skip res none today := by
  unfold executeRun getTodayDate
  by_cases he : d.isEmpty
  · simp [he]
  · simp [he, h]

/-- Witness for the amended C8 at the concrete malformed date. -/
theorem malformed_date_substitutes_today_witness :
    isValidDate "2025-13-01" = false ∧
    executeRun [] allStepsOk (some "2025-13-01") "2025-11-11"
      = executeRun [] allStepsOk none "2025-11-11" :=
  ⟨by decide,
   malformed_date_substitutes_today [] allStepsOk "2025-13-01" "2025-11-11"
     (by decide)⟩

/-- Claim C9: `fetch_signals` yields exactly one Signal per store row
matching the composed predicate, for every price environment — the
degraded path drops nothing, and an empty match set gives the empty list
(`length = 0`). -/
theorem one_signal_per_matching_row (prices : String → Option (List (String × ℚ)))
    (db : List EventRow) (a : QueryArgs) :
    (fetchSignals prices db a).length = (db.filter (matchesQuery a)).length := by
  unfold fetchSignals
  rw [List.length_map, length_queryRows]

/-- Claim C10: with the CCI import succeeding and the configured stock
pool (if any) readable, the update step returns `True` whatever the
per-stock outcomes — even when every stock fails. -/
theorem update_step_succeeds (poolCfg : Option String)
    (readPool : String → Option (List String)) (allCsv : List String)
    (env : String → StockOutcome)
    (h : ∀ f, poolCfg = some f → readPool f ≠ none) :
    (step15Model true poolCfg readPool allCsv env).1 = true := by
  unfold step15Model
  cases poolCfg with
  | none => rfl
  | some f =>
    cases hr : readPool f with
    | none => exact absurd hr (h f rfl)
    | some codes => simp [hr]

/-- Witness for C10: pool configured and readable, every stock failing —
the step still reports success. -/
theorem update_step_succeeds_witness :
    (step15Model true (some "stock_pool.txt") demoPool ["600519_SH"]
      demoAllFail).1 = true :=
  update_step_succeeds (some "stock_pool.txt") demoPool ["600519_SH"]
    demoAllFail (fun f _ => by simp [demoPool])

end DailyExec
